import Mathlib

/-!
Shallow embedding of the KickbackApp weight-tooling scripts
(`quantize_openelm.py` and `inspect_weights.py`) and proofs about them.

Tensors are modelled with exact rational elements (the scripts' float
arithmetic is treated as real arithmetic); a tensor stores its element
type, its shape, and its flattened element list.  The float-to-int8 cast
`astype(mx.int8)` truncates toward zero, which `truncToInt` models.

Batteries marks concrete `Rat` arithmetic irreducible, which blocks
`decide` on concrete rational computations; the attribute lines below
restore evaluation locally (kernel checking is unaffected).
-/

attribute [local semireducible] Rat.add Rat.sub Rat.mul Rat.inv Rat.ofScientific

namespace KickbackApp

/-- Element types appearing in the scripts: the three floating dtypes the
quantizer selects on, and the 8-bit signed integer output type. -/
inductive DType where
  | float32
  | float16
  | bfloat16
  | int8
deriving DecidableEq, Repr

/-- A named tensor's payload: dtype, shape, and flattened elements. -/
structure Tensor where
  dtype : DType
  shape : List Nat
  data : List ℚ
deriving DecidableEq, Repr

/-- `weight.dtype in [mx.float32, mx.float16, mx.bfloat16]`. -/
def isFloatingDType : DType → Bool
  | DType.float32 => true
  | DType.float16 => true
  | DType.bfloat16 => true
  | DType.int8 => false

/-- The quantization guard of `quantize_openelm.py` line 78:
floating dtype and `len(weight.shape) >= 2`. -/
def isQuantizable (t : Tensor) : Bool :=
  isFloatingDType t.dtype && decide (2 ≤ t.shape.length)

/-- `mx.min` over a whole tensor's elements (0 for the empty tensor,
which `mx.min` rejects; quantizable tensors of interest are nonempty). -/
def listMin : List ℚ → ℚ
  | [] => 0
  | x :: xs => xs.foldl min x

/-- `mx.max` over a whole tensor's elements. -/
def listMax : List ℚ → ℚ
  | [] => 0
  | x :: xs => xs.foldl max x

/-- `weight_min = mx.min(weight)` (line 81). -/
def weight_min (t : Tensor) : ℚ := listMin t.data

/-- `weight_max = mx.max(weight)` (line 82). -/
def weight_max (t : Tensor) : ℚ := listMax t.data

/-- `scale = (weight_max - weight_min) / 255.0` (line 83). -/
def scaleOf (t : Tensor) : ℚ := (weight_max t - weight_min t) / 255

/-- `mx.clip(x, lo, hi) = minimum(maximum(x, lo), hi)`. -/
def clip (x lo hi : ℚ) : ℚ := min (max x lo) hi

/-- Truncation toward zero, the conversion `astype(mx.int8)` applies to a
float value already inside the representable range.  Written with
`Rat.floor` so that it evaluates; bridged to `Int.floor`/`Int.ceil` in
the lemmas below. -/
def truncToInt (q : ℚ) : ℤ := if 0 ≤ q then Rat.floor q else -Rat.floor (-q)

/-- One element of the quantization of lines 87-89:
`quantized_float = (w - zero_point) / scale`;
`quantized_int8 = clip(quantized_float, 0, 255) - 128` cast to int8. -/
def quantElem (zp s w : ℚ) : ℤ := truncToInt (clip ((w - zp) / s) 0 255 - 128)

/-- The quantized tensor stored at the original key (lines 87-92):
int8 dtype, same shape, each element quantized with the tensor-wide
`zero_point = weight_min` and `scale`. -/
def quantizeTensor (t : Tensor) : Tensor :=
  { dtype := DType.int8
    shape := t.shape
    data := t.data.map fun w => ((quantElem (weight_min t) (scaleOf t) w : ℤ) : ℚ) }

/-- A zero-rank (scalar) tensor, as produced by `mx.min`/arithmetic on it;
its dtype follows the source weight's dtype. -/
def scalarTensor (d : DType) (v : ℚ) : Tensor :=
  { dtype := d, shape := [], data := [v] }

/-- The dequantization map the spec prescribes:
`dequantized = (quantized_int8 + 128) * scale + zero_point`. -/
def dequant (s zp q : ℚ) : ℚ := (q + 128) * s + zp

/-- Modelled from the spec (claim C1's reading of the transform): round to
nearest, half up. The source code never rounds; this definition exists
only to compare the spec's `round_and_clip` wording with the code. -/
def roundNearest (q : ℚ) : ℤ := Rat.floor (q + 1 / 2)

/-- Modelled from the spec (claim C1): `round_and_clip(x, lo, hi)`,
rounding to nearest and clipping into `[lo, hi]`. -/
def specRoundAndClip (x : ℚ) (lo hi : ℤ) : ℤ := min hi (max lo (roundNearest x))

/-! ### The weight mapping (Python `dict`) -/

/-- A mapping from tensor names to tensors, in insertion order. -/
abbrev WeightMap := List (String × Tensor)

/-- Dictionary lookup: the value stored under `k` (keys are unique). -/
def lookupW : WeightMap → String → Option Tensor
  | [], _ => none
  | (k', v) :: rest, k => if k' = k then some v else lookupW rest k

/-- Dictionary assignment `m[k] = v`: overwrite the entry in place if the
key is present, append otherwise. -/
def insertW : WeightMap → String → Tensor → WeightMap
  | [], k, v => [(k, v)]
  | (k', v') :: rest, k, v =>
    if k' = k then (k, v) :: rest else (k', v') :: insertW rest k v

/-- Processing of one `(key, weight)` pair of the loop at lines 77-106:
a quantizable weight contributes the quantized tensor plus its
`key.scale` and `key.zero_point` scalar entries; anything else is copied
through unchanged. -/
def quantizeStep (m : WeightMap) (kt : String × Tensor) : WeightMap :=
  if isQuantizable kt.2 then
    insertW
      (insertW
        (insertW m kt.1 (quantizeTensor kt.2))
        (kt.1 ++ ".scale") (scalarTensor kt.2.dtype (scaleOf kt.2)))
      (kt.1 ++ ".zero_point") (scalarTensor kt.2.dtype (weight_min kt.2))
  else
    insertW m kt.1 kt.2

/-- The whole quantization loop: fold `quantizeStep` over the loaded
weights in iteration order, starting from the empty output dict. -/
def quantizeAll (ws : WeightMap) : WeightMap := ws.foldl quantizeStep []

/-- The output-dict keys written while processing one input entry. -/
def entryKeys (p : String × Tensor) : List String :=
  if isQuantizable p.2 then [p.1, p.1 ++ ".scale", p.1 ++ ".zero_point"]
  else [p.1]

/-- All output-dict keys written by the loop over `ws`. -/
def writtenKeys (ws : WeightMap) : List String := ws.flatMap entryKeys

/-! ### Loading, saving, process-level control flow -/

/-- Loading one shard file: `for key, tensor in weights.items():
all_weights[key] = tensor` (lines 51-52). -/
def loadShard (m : WeightMap) (shard : WeightMap) : WeightMap :=
  shard.foldl (fun acc p => insertW acc p.1 p.2) m

/-- Loading both shard files in their fixed order (lines 45-52). -/
def loadAll (s1 s2 : WeightMap) : WeightMap := loadShard (loadShard [] s1) s2

/-- The fixed model directory of `quantize_openelm.py`. -/
def modelDir : String := "KickbackApp/Resources/Models"

/-- The two fixed shard file names (lines 26-29). -/
def shardFile1 : String := "model-00001-of-00002.safetensors"

/-- Second fixed shard file name. -/
def shardFile2 : String := "model-00002-of-00002.safetensors"

/-- The environment a run of the quantizer sees: the contents of each
shard file (`none` = the file does not exist) and whether the save step
raises, with the raised error's text. -/
structure Env where
  shard1 : Option WeightMap
  shard2 : Option WeightMap
  saveError : Option String

/-- Observable outcome of one run of `quantize_openelm_model`:
the boolean return value, the error lines printed, the combined mapping
(once loading happened) and the output file's contents (once written). -/
structure RunResult where
  success : Bool
  errors : List String
  loaded : Option WeightMap
  written : Option WeightMap
deriving DecidableEq

/-- The existence check of lines 34-39: walk the shard list in order and
return the full path of the first missing file, if any. -/
def firstMissing (env : Env) : Option String :=
  if env.shard1.isNone then some (modelDir ++ "/" ++ shardFile1)
  else if env.shard2.isNone then some (modelDir ++ "/" ++ shardFile2)
  else none

/-- `quantize_openelm_model()`: existence check, load, quantize, save.
A missing shard aborts before anything is loaded or written; a save
failure is caught and reported; otherwise the quantized mapping is
written to the output file. -/
def quantize_openelm_model (env : Env) : RunResult :=
  match firstMissing env with
  | some p =>
    { success := false
      errors := ["❌ Error: " ++ p ++ " not found"]
      loaded := none
      written := none }
  | none =>
    let all := loadAll (env.shard1.getD []) (env.shard2.getD [])
    let q := quantizeAll all
    match env.saveError with
    | some e =>
      { success := false
        errors := ["❌ Error saving quantized model: " ++ e]
        loaded := some all
        written := none }
    | none =>
      { success := true, errors := [], loaded := some all, written := some q }

/-- `main()`: exit code 0 on success, 1 (`sys.exit(1)`) otherwise. -/
def mainExit (env : Env) : Nat :=
  if (quantize_openelm_model env).success then 0 else 1

/-! ### The weight-index inspector (`inspect_weights.py`) -/

/-- Lexicographic comparison of character lists by code point, the order
Python's `sorted` uses on these strings. -/
def lexLe : List Char → List Char → Bool
  | [], _ => true
  | _ :: _, [] => false
  | a :: as, b :: bs => if a < b then true else if b < a then false else lexLe as bs

/-- The sorting order on strings, as a relation for `insertionSort`. -/
def strLe (a b : String) : Prop := lexLe a.data b.data = true

instance : DecidableRel strLe :=
  fun a b => inferInstanceAs (Decidable (lexLe a.data b.data = true))

/-- `sorted(keys)`. -/
def sortKeys (l : List String) : List String := List.insertionSort strLe l

/-- Substring containment on character lists (Python's `in` on `str`). -/
def containsChars (needle : List Char) : List Char → Bool
  | [] => needle.isEmpty
  | c :: rest => needle.isPrefixOf (c :: rest) || containsChars needle rest

/-- `category in k.lower()` (the parameter names are ASCII, where
`Char.toLower` agrees with Python's `str.lower`). -/
def lowerContains (needle k : String) : Bool :=
  containsChars needle.data (k.data.map Char.toLower)

/-- `[k for k in weight_map.keys() if category in k.lower()]`. -/
def categoryMatches (needle : String) (keys : List String) : List String :=
  keys.filter fun k => lowerContains needle k

/-- The exact sequence of lines `inspect_weights.py` prints in its
index-present branch, one list element per `print` call, given the parsed
`weight_map` object (name-to-shard-filename pairs in insertion order). -/
def inspectOutput (weight_map : List (String × String)) : List String :=
  let keys := weight_map.map Prod.fst
  let embedding_weights := categoryMatches "embed" keys
  let token_weights := categoryMatches "token" keys
  let norm_weights := categoryMatches "norm" keys
  let transformer_weights := categoryMatches "transformer" keys
  ["Available weights in the model:", String.mk (List.replicate 50 '=')]
  ++ ("\nEmbedding weights (" ++ toString embedding_weights.length ++ "):")
      :: (sortKeys embedding_weights).map (fun w => "  " ++ w)
  ++ ("\nToken weights (" ++ toString token_weights.length ++ "):")
      :: (sortKeys token_weights).map (fun w => "  " ++ w)
  ++ "\nNorm weights (first 10):"
      :: ((sortKeys norm_weights).take 10).map (fun w => "  " ++ w)
  ++ "\nTransformer weights (first 10):"
      :: ((sortKeys transformer_weights).take 10).map (fun w => "  " ++ w)
  ++ ["\nTotal weights: " ++ toString keys.length]

/-! ### Concrete inputs used in counterexamples and witnesses -/

/-- A 2x2 float32 tensor whose values expose the truncation/rounding
difference: with `weight_min = 0`, `weight_max = 765` its scale is 3. -/
def tFrac : Tensor := { dtype := DType.float32, shape := [2, 2], data := [0, 1, 100, 765] }

/-- A rank-1 float tensor (passthrough). -/
def tRank1 : Tensor := { dtype := DType.float32, shape := [1], data := [5] }

/-- A quantizable 2x2 tensor named by colliding examples. -/
def tRank2 : Tensor := { dtype := DType.float32, shape := [2, 2], data := [0, 1, 2, 3] }

/-- A constant-valued quantizable tensor (degenerate scale). -/
def tConst : Tensor := { dtype := DType.float32, shape := [2, 2], data := [1, 1, 1, 1] }

/-- Input whose passthrough tensor `x.scale` is later overwritten by the
quantizable tensor `x`'s scale entry. -/
def wsClash3 : WeightMap := [("x.scale", tRank1), ("x", tRank2)]

/-- Input whose quantizable tensor `x`'s scale entry is later overwritten
by the passthrough tensor named `x.scale`. -/
def wsClash4 : WeightMap := [("x", tRank2), ("x.scale", tRank1)]

/-- Weight-index keys for the inspector counterexample: three `norm`
matches, two unmatched keys, no digit `3` anywhere. -/
def wmNorm : List (String × String) :=
  [("model.norm.a", "a"), ("model.norm.b", "a"), ("model.norm.c", "b"),
   ("model.alpha", "b"), ("model.beta", "b")]

/-- Environment with the first shard file missing. -/
def envC5 : Env := { shard1 := none, shard2 := some [], saveError := none }

/-- Environment where both shards exist but the save step raises. -/
def envC8 : Env :=
  { shard1 := some [("a", tRank2)], shard2 := some [], saveError := some "disk full" }

/-- Environment whose two shards both hold a tensor named `a`. -/
def envC9 : Env :=
  { shard1 := some [("a", tRank1)]
    shard2 := some [("a", tRank2), ("b", tRank1)]
    saveError := none }

/-! ## Helper lemmas about the weight-map dictionary -/

theorem lookupW_insertW_self (m : WeightMap) (k : String) (v : Tensor) :
    lookupW (insertW m k v) k = some v := by
  induction m with
  | nil => simp [insertW, lookupW]
  | cons p rest ih =>
    obtain ⟨k', v'⟩ := p
    by_cases h : k' = k
    · subst h; simp [insertW, lookupW]
    · simp [insertW, lookupW, h, ih]

theorem lookupW_insertW_ne (m : WeightMap) {k k' : String} (v : Tensor) (h : k' ≠ k) :
    lookupW (insertW m k' v) k = lookupW m k := by
  induction m with
  | nil => simp [insertW, lookupW, h]
  | cons p rest ih =>
    obtain ⟨k₀, v₀⟩ := p
    by_cases h0 : k₀ = k'
    · subst h0; simp [insertW, lookupW, h]
    · by_cases hk : k₀ = k
      · subst hk; simp [insertW, lookupW, h0, Ne.symm h0]
      · simp [insertW, lookupW, h0, hk, ih]

theorem mem_of_lookupW_eq_some :
    ∀ (m : WeightMap) (k : String) (t : Tensor), lookupW m k = some t → (k, t) ∈ m := by
  intro m
  induction m with
  | nil => intro k t h; simp [lookupW] at h
  | cons p rest ih =>
    intro k t h
    obtain ⟨k', v'⟩ := p
    by_cases hk : k' = k
    · subst hk
      simp [lookupW] at h
      simp [h]
    · simp [lookupW, hk] at h
      exact List.mem_cons_of_mem _ (ih _ _ h)

/-- A string strictly grows under appending a nonempty suffix. -/
theorem append_suffix_ne_self (k s : String) (h : s.data.length ≠ 0) : k ++ s ≠ k := by
  intro he
  have hd : k.data ++ s.data = k.data := by
    simpa [String.data_append] using congrArg String.data he
  have hl := congrArg List.length hd
  simp [List.length_append] at hl
  exact h hl

/-- Appending different suffixes to the same string gives different strings. -/
theorem append_suffix_ne_append (k : String) {s t : String} (h : s.data ≠ t.data) :
    k ++ s ≠ k ++ t := by
  intro he
  have hd : k.data ++ s.data = k.data ++ t.data := by
    simpa [String.data_append] using congrArg String.data he
  exact h (List.append_cancel_left hd)

theorem scale_key_ne_self (k : String) : k ++ ".scale" ≠ k :=
  append_suffix_ne_self k ".scale" (by decide)

theorem zero_point_key_ne_self (k : String) : k ++ ".zero_point" ≠ k :=
  append_suffix_ne_self k ".zero_point" (by decide)

theorem zero_point_key_ne_scale_key (k : String) : k ++ ".zero_point" ≠ k ++ ".scale" :=
  append_suffix_ne_append k (by decide)

/-- A key not written while processing `p` is untouched by `quantizeStep`. -/
theorem lookupW_quantizeStep_notMem (m : WeightMap) (p : String × Tensor) (k : String)
    (h : k ∉ entryKeys p) : lookupW (quantizeStep m p) k = lookupW m k := by
  by_cases hq : isQuantizable p.2
  · simp only [entryKeys, hq, if_true, List.mem_cons, List.not_mem_nil, or_false] at h
    push_neg at h
    obtain ⟨h1, h2, h3⟩ := h
    simp only [quantizeStep, hq, if_true]
    rw [lookupW_insertW_ne _ _ (Ne.symm h3), lookupW_insertW_ne _ _ (Ne.symm h2),
      lookupW_insertW_ne _ _ (Ne.symm h1)]
  · simp only [entryKeys, hq, if_false, Bool.false_eq_true, List.mem_cons,
      List.not_mem_nil, or_false] at h
    simp only [quantizeStep, hq, if_false, Bool.false_eq_true]
    rw [lookupW_insertW_ne _ _ (Ne.symm h)]

/-- A key not written by any entry of `ws` is untouched by the whole loop. -/
theorem lookupW_foldl_quantizeStep_notMem (ws : WeightMap) (m : WeightMap) (k : String)
    (h : k ∉ writtenKeys ws) :
    lookupW (ws.foldl quantizeStep m) k = lookupW m k := by
  induction ws generalizing m with
  | nil => rfl
  | cons p rest ih =>
    simp only [writtenKeys, List.flatMap_cons, List.mem_append] at h
    push_neg at h
    rw [List.foldl_cons, ih _ h.2, lookupW_quantizeStep_notMem _ _ _ h.1]

/-- After the loop, a passthrough entry whose key no other entry writes is
looked up unchanged. -/
theorem quantizeFold_lookup_pass :
    ∀ (ws m : WeightMap) (k : String) (t : Tensor),
      (k, t) ∈ ws → isQuantizable t = false →
      (∀ p ∈ ws, p ≠ (k, t) → k ∉ entryKeys p) →
      lookupW (ws.foldl quantizeStep m) k = some t := by
  intro ws
  induction ws with
  | nil => intro m k t hmem; simp at hmem
  | cons p rest ih =>
    intro m k t hmem hq hnc
    rw [List.foldl_cons]
    by_cases hrest : (k, t) ∈ rest
    · exact ih _ k t hrest hq fun p hp hne => hnc p (List.mem_cons_of_mem _ hp) hne
    · have hp : p = (k, t) := by
        rcases List.mem_cons.mp hmem with h | h
        · exact h.symm
        · exact absurd h hrest
      subst hp
      have hnotin : k ∉ writtenKeys rest := by
        intro hx
        rcases List.mem_flatMap.mp hx with ⟨q, hq1, hq2⟩
        by_cases hqe : q = (k, t)
        · exact hrest (hqe ▸ hq1)
        · exact hnc q (List.mem_cons_of_mem _ hq1) hqe hq2
      rw [lookupW_foldl_quantizeStep_notMem _ _ _ hnotin]
      simp only [quantizeStep, hq, if_false]
      exact lookupW_insertW_self _ _ _

/-- After the loop, a quantized entry whose three written keys no other
entry writes is looked up as the quantized tensor plus its two scalars. -/
theorem quantizeFold_lookup_quant :
    ∀ (ws m : WeightMap) (k : String) (t : Tensor),
      (k, t) ∈ ws → isQuantizable t = true →
      (∀ p ∈ ws, p ≠ (k, t) → ∀ s ∈ entryKeys p, s ∉ entryKeys (k, t)) →
      lookupW (ws.foldl quantizeStep m) k = some (quantizeTensor t) ∧
      lookupW (ws.foldl quantizeStep m) (k ++ ".scale")
        = some (scalarTensor t.dtype (scaleOf t)) ∧
      lookupW (ws.foldl quantizeStep m) (k ++ ".zero_point")
        = some (scalarTensor t.dtype (weight_min t)) := by
  intro ws
  induction ws with
  | nil => intro m k t hmem; simp at hmem
  | cons p rest ih =>
    intro m k t hmem hq hnc
    rw [List.foldl_cons]
    by_cases hrest : (k, t) ∈ rest
    · exact ih _ k t hrest hq fun p hp hne => hnc p (List.mem_cons_of_mem _ hp) hne
    · have hp : p = (k, t) := by
        rcases List.mem_cons.mp hmem with h | h
        · exact h.symm
        · exact absurd h hrest
      subst hp
      have hself : ∀ s ∈ entryKeys (k, t), s ∉ writtenKeys rest := by
        intro s hs hx
        rcases List.mem_flatMap.mp hx with ⟨q, hq1, hq2⟩
        by_cases hqe : q = (k, t)
        · exact hrest (hqe ▸ hq1)
        · exact hnc q (List.mem_cons_of_mem _ hq1) hqe s hq2 hs
      have hk : k ∈ entryKeys (k, t) := by simp [entryKeys, hq]
      have hsc : k ++ ".scale" ∈ entryKeys (k, t) := by simp [entryKeys, hq]
      have hzp : k ++ ".zero_point" ∈ entryKeys (k, t) := by simp [entryKeys, hq]
      rw [lookupW_foldl_quantizeStep_notMem _ _ _ (hself _ hk),
        lookupW_foldl_quantizeStep_notMem _ _ _ (hself _ hsc),
        lookupW_foldl_quantizeStep_notMem _ _ _ (hself _ hzp)]
      simp only [quantizeStep, hq, if_true]
      refine ⟨?_, ?_, ?_⟩
      · rw [lookupW_insertW_ne _ _ (zero_point_key_ne_self k),
          lookupW_insertW_ne _ _ (scale_key_ne_self k)]
        exact lookupW_insertW_self _ _ _
      · rw [lookupW_insertW_ne _ _ (zero_point_key_ne_scale_key k)]
        exact lookupW_insertW_self _ _ _
      · exact lookupW_insertW_self _ _ _

/-! ## Loading lemmas -/

theorem loadShard_cons (m : WeightMap) (p : String × Tensor) (rest : List (String × Tensor)) :
    loadShard m (p :: rest) = loadShard (insertW m p.1 p.2) rest := rfl

theorem lookupW_loadShard_notMem (shard : WeightMap) :
    ∀ (m : WeightMap) (k : String), k ∉ shard.map Prod.fst →
      lookupW (loadShard m shard) k = lookupW m k := by
  induction shard with
  | nil => intro m k _; rfl
  | cons p rest ih =>
    intro m k h
    simp only [List.map_cons, List.mem_cons] at h
    push_neg at h
    rw [loadShard_cons, ih _ _ h.2, lookupW_insertW_ne _ _ (Ne.symm h.1)]

theorem lookupW_loadShard_mem (shard : WeightMap) :
    ∀ (m : WeightMap) (k : String) (t : Tensor), (shard.map Prod.fst).Nodup →
      (k, t) ∈ shard → lookupW (loadShard m shard) k = some t := by
  induction shard with
  | nil => intro m k t _ hmem; simp at hmem
  | cons p rest ih =>
    intro m k t hnd hmem
    simp only [List.map_cons, List.nodup_cons] at hnd
    rw [loadShard_cons]
    rcases List.mem_cons.mp hmem with h | h
    · obtain rfl : p = (k, t) := h.symm
      rw [lookupW_loadShard_notMem rest _ _ hnd.1, lookupW_insertW_self]
    · exact ih _ _ _ hnd.2 h

/-! ## Claim C9: last shard wins on duplicate tensor names -/

/-- C9: when the same tensor name appears in both shard files, the
combined in-memory mapping holds the tensor loaded from the later shard
file: loading folds the shards in their fixed order and each assignment
overwrites any earlier entry under the same name. -/
theorem C9_last_shard_wins (env : Env) (w1 w2 : WeightMap) (k : String) (t : Tensor)
    (h1 : env.shard1 = some w1) (h2 : env.shard2 = some w2)
    (hnd : (w2.map Prod.fst).Nodup)
    (hin1 : lookupW w1 k ≠ none) (hin2 : lookupW w2 k = some t) :
    (quantize_openelm_model env).loaded = some (loadAll w1 w2) ∧
    lookupW (loadAll w1 w2) k = some t := by
  constructor
  · cases hs : env.saveError <;>
      simp [quantize_openelm_model, firstMissing, h1, h2, hs]
  · exact lookupW_loadShard_mem w2 _ _ _ hnd (mem_of_lookupW_eq_some _ _ _ hin2)

/-- Witness for C9 at a concrete environment whose shards share the name `a`. -/
theorem C9_witness :
    envC9.shard1 = some [("a", tRank1)] ∧
    envC9.shard2 = some [("a", tRank2), ("b", tRank1)] ∧
    (([("a", tRank2), ("b", tRank1)] : WeightMap).map Prod.fst).Nodup ∧
    lookupW [("a", tRank1)] "a" ≠ none ∧
    lookupW [("a", tRank2), ("b", tRank1)] "a" = some tRank2 ∧
    ((quantize_openelm_model envC9).loaded
        = some (loadAll [("a", tRank1)] [("a", tRank2), ("b", tRank1)]) ∧
      lookupW (loadAll [("a", tRank1)] [("a", tRank2), ("b", tRank1)]) "a" = some tRank2) :=
  ⟨rfl, rfl, by decide, by decide, by decide,
    C9_last_shard_wins envC9 _ _ "a" tRank2 rfl rfl (by decide) (by decide) (by decide)⟩

/-! ## Claim C5: missing shard aborts before loading and writing -/

/-- C5: if an expected shard file is missing, the quantizer aborts before
loading any tensor and before writing any output, returns failure (which
`main` turns into exit code 1), and its error line names the specific
missing path. -/
theorem C5_missing_shard_aborts (env : Env)
    (h : env.shard1 = none ∨ env.shard2 = none) :
    ∃ p, ((env.shard1 = none ∧ p = modelDir ++ "/" ++ shardFile1) ∨
          (env.shard1 ≠ none ∧ env.shard2 = none ∧ p = modelDir ++ "/" ++ shardFile2)) ∧
      quantize_openelm_model env =
        { success := false
          errors := ["❌ Error: " ++ p ++ " not found"]
          loaded := none
          written := none } ∧
      mainExit env = 1 := by
  by_cases h1 : env.shard1 = none
  · refine ⟨modelDir ++ "/" ++ shardFile1, Or.inl ⟨h1, rfl⟩, ?_, ?_⟩
    · simp [quantize_openelm_model, firstMissing, h1]
    · simp [mainExit, quantize_openelm_model, firstMissing, h1]
  · have h2 : env.shard2 = none := h.resolve_left h1
    obtain ⟨w1, hw1⟩ := Option.ne_none_iff_exists'.mp h1
    refine ⟨modelDir ++ "/" ++ shardFile2, Or.inr ⟨h1, h2, rfl⟩, ?_, ?_⟩
    · simp [quantize_openelm_model, firstMissing, hw1, h2]
    · simp [mainExit, quantize_openelm_model, firstMissing, hw1, h2]

/-- Witness for C5 at an environment missing the first shard. -/
theorem C5_witness :
    envC5.shard1 = none ∧
    (∃ p, ((envC5.shard1 = none ∧ p = modelDir ++ "/" ++ shardFile1) ∨
           (envC5.shard1 ≠ none ∧ envC5.shard2 = none ∧
            p = modelDir ++ "/" ++ shardFile2)) ∧
      quantize_openelm_model envC5 =
        { success := false
          errors := ["❌ Error: " ++ p ++ " not found"]
          loaded := none
          written := none } ∧
      mainExit envC5 = 1) :=
  ⟨rfl, C5_missing_shard_aborts envC5 (Or.inl rfl)⟩

/-! ## Claim C8: save failures are caught and reported -/

/-- C8: a failure raised during the save step is caught, its cause is
reported in the error line, the function returns failure instead of
re-raising, and `main` converts that into exit code 1. -/
theorem C8_save_failure_caught (env : Env) (e : String)
    (h1 : env.shard1 ≠ none) (h2 : env.shard2 ≠ none) (he : env.saveError = some e) :
    (quantize_openelm_model env).success = false ∧
    (quantize_openelm_model env).errors = ["❌ Error saving quantized model: " ++ e] ∧
    (quantize_openelm_model env).written = none ∧
    mainExit env = 1 := by
  obtain ⟨w1, hw1⟩ := Option.ne_none_iff_exists'.mp h1
  obtain ⟨w2, hw2⟩ := Option.ne_none_iff_exists'.mp h2
  refine ⟨?_, ?_, ?_, ?_⟩ <;>
    simp [quantize_openelm_model, firstMissing, mainExit, hw1, hw2, he]

/-- Witness for C8 at a concrete environment whose save step raises. -/
theorem C8_witness :
    envC8.shard1 ≠ none ∧ envC8.shard2 ≠ none ∧ envC8.saveError = some "disk full" ∧
    ((quantize_openelm_model envC8).success = false ∧
      (quantize_openelm_model envC8).errors
        = ["❌ Error saving quantized model: " ++ "disk full"] ∧
      (quantize_openelm_model envC8).written = none ∧
      mainExit envC8 = 1) :=
  ⟨by decide, by decide, rfl, C8_save_failure_caught envC8 "disk full" (by decide) (by decide) rfl⟩

/-! ## Claim C6: degenerate scale, unguarded division by zero -/

/-- C6: a constant-valued quantizable tensor makes `scale` equal 0, and the
quantization step still runs on it with the zero divisor — no guard skips
it: the stored data is literally the elementwise map dividing by 0, and
the tensor's `.scale` entry in the output holds 0. -/
theorem C6_degenerate_scale (k : String) (t : Tensor)
    (hq : isQuantizable t = true) (h : weight_max t = weight_min t) :
    scaleOf t = 0 ∧
    (quantizeTensor t).data
      = t.data.map (fun w => ((truncToInt (clip ((w - weight_min t) / 0) 0 255 - 128) : ℤ) : ℚ)) ∧
    lookupW (quantizeAll [(k, t)]) (k ++ ".scale") = some (scalarTensor t.dtype 0) := by
  have hs : scaleOf t = 0 := by rw [scaleOf, h, sub_self, zero_div]
  refine ⟨hs, ?_, ?_⟩
  · simp only [quantizeTensor, quantElem, hs]
  · have h3 := (quantizeFold_lookup_quant [(k, t)] [] k t (List.mem_singleton.mpr rfl) hq
      (fun p hp hne => absurd (List.mem_singleton.mp hp) hne)).2.1
    rw [hs] at h3
    exact h3

/-- Witness for C6 at the constant tensor `tConst`. -/
theorem C6_witness :
    isQuantizable tConst = true ∧ weight_max tConst = weight_min tConst ∧
    (scaleOf tConst = 0 ∧
      (quantizeTensor tConst).data
        = tConst.data.map
          (fun w => ((truncToInt (clip ((w - weight_min tConst) / 0) 0 255 - 128) : ℤ) : ℚ)) ∧
      lookupW (quantizeAll [("w", tConst)]) ("w" ++ ".scale")
        = some (scalarTensor tConst.dtype 0)) :=
  ⟨by decide, by decide, C6_degenerate_scale "w" tConst (by decide) (by decide)⟩

/-! ## Claim C3: passthrough tensors survive byte-identically (amended) -/

/-- Counterexample to C3 as stated: in `wsClash3` the passthrough rank-1
tensor stored under `x.scale` is overwritten by the scale entry of the
quantizable tensor `x`, so the output does not contain it under its
original name. -/
theorem C3_counterexample :
    isQuantizable tRank1 = false ∧ isQuantizable tRank2 = true ∧
    lookupW wsClash3 "x.scale" = some tRank1 ∧
    lookupW (quantizeAll wsClash3) "x.scale"
      = some (scalarTensor DType.float32 (scaleOf tRank2)) ∧
    lookupW (quantizeAll wsClash3) "x.scale" ≠ some tRank1 :=
  ⟨by decide, by decide, by decide, by decide, by decide⟩

/-- C3 (amended): a passthrough tensor appears in the output under its
original name, byte-identical, provided no other entry writes its key
(in particular no quantizable tensor `k2` with `k = k2 + ".scale"` or
`k = k2 + ".zero_point"`). -/
theorem C3_passthrough_amended (ws : WeightMap) (k : String) (t : Tensor)
    (hmem : (k, t) ∈ ws) (hq : isQuantizable t = false)
    (hnc : ∀ p ∈ ws, p ≠ (k, t) → k ∉ entryKeys p) :
    lookupW (quantizeAll ws) k = some t :=
  quantizeFold_lookup_pass ws [] k t hmem hq hnc

/-- Witness for the amended C3 on a collision-free input. -/
theorem C3_witness :
    ("a", tRank1) ∈ ([("a", tRank1), ("b", tRank2)] : WeightMap) ∧
    isQuantizable tRank1 = false ∧
    lookupW (quantizeAll [("a", tRank1), ("b", tRank2)]) "a" = some tRank1 :=
  ⟨by decide, by decide,
    C3_passthrough_amended [("a", tRank1), ("b", tRank2)] "a" tRank1
      (by decide) (by decide) (by decide)⟩

/-! ## Claim C4: quantized triplet in the output (amended) -/

/-- Counterexample to C4 as stated: in `wsClash4` the scale entry of the
quantized tensor `x` is later overwritten by the passthrough rank-1
tensor named `x.scale`, so `x.scale` in the output is not a scalar. -/
theorem C4_counterexample :
    isQuantizable tRank2 = true ∧
    lookupW wsClash4 "x" = some tRank2 ∧
    lookupW (quantizeAll wsClash4) "x.scale" = some tRank1 ∧
    tRank1.shape.length ≠ 0 :=
  ⟨by decide, by decide, by decide, by decide⟩

/-- C4 (amended): for a tensor selected for quantization whose three
output keys no other entry writes, the output holds the int8 tensor under
`k` and zero-rank scalars under `k.scale` and `k.zero_point`. -/
theorem C4_triplet_amended (ws : WeightMap) (k : String) (t : Tensor)
    (hmem : (k, t) ∈ ws) (hq : isQuantizable t = true)
    (hnc : ∀ p ∈ ws, p ≠ (k, t) → ∀ s ∈ entryKeys p, s ∉ entryKeys (k, t)) :
    lookupW (quantizeAll ws) k = some (quantizeTensor t) ∧
    (quantizeTensor t).dtype = DType.int8 ∧
    lookupW (quantizeAll ws) (k ++ ".scale") = some (scalarTensor t.dtype (scaleOf t)) ∧
    (scalarTensor t.dtype (scaleOf t)).shape.length = 0 ∧
    lookupW (quantizeAll ws) (k ++ ".zero_point") = some (scalarTensor t.dtype (weight_min t)) ∧
    (scalarTensor t.dtype (weight_min t)).shape.length = 0 := by
  have h := quantizeFold_lookup_quant ws [] k t hmem hq hnc
  exact ⟨h.1, rfl, h.2.1, rfl, h.2.2, rfl⟩

/-- Witness for the amended C4 on a collision-free input. -/
theorem C4_witness :
    ("a", tRank2) ∈ ([("a", tRank2)] : WeightMap) ∧ isQuantizable tRank2 = true ∧
    (lookupW (quantizeAll [("a", tRank2)]) "a" = some (quantizeTensor tRank2) ∧
      (quantizeTensor tRank2).dtype = DType.int8 ∧
      lookupW (quantizeAll [("a", tRank2)]) ("a" ++ ".scale")
        = some (scalarTensor tRank2.dtype (scaleOf tRank2)) ∧
      (scalarTensor tRank2.dtype (scaleOf tRank2)).shape.length = 0 ∧
      lookupW (quantizeAll [("a", tRank2)]) ("a" ++ ".zero_point")
        = some (scalarTensor tRank2.dtype (weight_min tRank2)) ∧
      (scalarTensor tRank2.dtype (weight_min tRank2)).shape.length = 0) :=
  ⟨by decide, by decide,
    C4_triplet_amended [("a", tRank2)] "a" tRank2 (by decide) (by decide) (by decide)⟩

/-! ## Numeric lemmas for the quantization transform -/

theorem ratFloor_eq_floor (q : ℚ) : Rat.floor q = ⌊q⌋ := by
  rw [Rat.floor_def', Rat.floor_def]

theorem truncToInt_eq (q : ℚ) : truncToInt q = if 0 ≤ q then ⌊q⌋ else ⌈q⌉ := by
  rw [truncToInt]
  by_cases h : 0 ≤ q
  · rw [if_pos h, if_pos h, ratFloor_eq_floor]
  · rw [if_neg h, if_neg h, ratFloor_eq_floor, Int.floor_neg, neg_neg]

/-- Truncation toward zero moves a rational by less than one. -/
theorem abs_truncToInt_sub_le (q : ℚ) : |((truncToInt q : ℤ) : ℚ) - q| ≤ 1 := by
  rw [truncToInt_eq]
  by_cases h : 0 ≤ q
  · rw [if_pos h]
    have h1 : ((⌊q⌋ : ℤ) : ℚ) ≤ q := Int.floor_le q
    have h2 : q - 1 < ((⌊q⌋ : ℤ) : ℚ) := Int.sub_one_lt_floor q
    rw [abs_le]
    constructor <;> linarith
  · rw [if_neg h]
    have h1 : q ≤ ((⌈q⌉ : ℤ) : ℚ) := Int.le_ceil q
    have h2 : ((⌈q⌉ : ℤ) : ℚ) < q + 1 := Int.ceil_lt_add_one q
    rw [abs_le]
    constructor <;> linarith

/-- Truncation toward zero of a value in `[-128, 127]` stays in range. -/
theorem truncToInt_mem_Icc {q : ℚ} (h1 : -128 ≤ q) (h2 : q ≤ 127) :
    -128 ≤ truncToInt q ∧ truncToInt q ≤ 127 := by
  rw [truncToInt_eq]
  by_cases h : 0 ≤ q
  · rw [if_pos h]
    constructor
    · have h0 : (0 : ℤ) ≤ ⌊q⌋ := Int.floor_nonneg.mpr h
      omega
    · have hle : ((⌊q⌋ : ℤ) : ℚ) ≤ 127 := (Int.floor_le q).trans h2
      exact_mod_cast hle
  · rw [if_neg h]
    push_neg at h
    constructor
    · have hge : (-128 : ℚ) ≤ ((⌈q⌉ : ℤ) : ℚ) := h1.trans (Int.le_ceil q)
      exact_mod_cast hge
    · have hlt : ((⌈q⌉ : ℤ) : ℚ) < 1 := (Int.ceil_lt_add_one q).trans_le (by linarith)
      have : (⌈q⌉ : ℤ) < 1 := by exact_mod_cast hlt
      omega

theorem clip_mem (x : ℚ) {lo hi : ℚ} (h : lo ≤ hi) :
    lo ≤ clip x lo hi ∧ clip x lo hi ≤ hi :=
  ⟨le_min (le_max_right x lo) h, min_le_right _ _⟩

theorem clip_eq_self {x lo hi : ℚ} (h1 : lo ≤ x) (h2 : x ≤ hi) : clip x lo hi = x := by
  rw [clip, max_eq_left h1, min_eq_left h2]

/-- Every element the quantizer stores lies in `[-128, 127]`, with no
hypotheses: clipping to `[0, 255]` happens before the `-128` offset and
before the int8 cast. -/
theorem quantElem_range (zp s w : ℚ) :
    -128 ≤ quantElem zp s w ∧ quantElem zp s w ≤ 127 := by
  rw [quantElem]
  have hc := clip_mem ((w - zp) / s) (by norm_num : (0 : ℚ) ≤ 255)
  exact truncToInt_mem_Icc (by linarith [hc.1]) (by linarith [hc.2])

theorem foldl_min_le_init : ∀ (xs : List ℚ) (a : ℚ), xs.foldl min a ≤ a := by
  intro xs
  induction xs with
  | nil => intro a; exact le_refl a
  | cons y ys ih => intro a; exact (ih (min a y)).trans (min_le_left a y)

theorem foldl_min_le_mem : ∀ (xs : List ℚ) (a x : ℚ), x ∈ xs → xs.foldl min a ≤ x := by
  intro xs
  induction xs with
  | nil => intro a x hx; simp at hx
  | cons y ys ih =>
    intro a x hx
    rcases List.mem_cons.mp hx with rfl | hx
    · exact (foldl_min_le_init ys (min a x)).trans (min_le_right a x)
    · exact ih _ _ hx

theorem init_le_foldl_max : ∀ (xs : List ℚ) (a : ℚ), a ≤ xs.foldl max a := by
  intro xs
  induction xs with
  | nil => intro a; exact le_refl a
  | cons y ys ih => intro a; exact (le_max_left a y).trans (ih (max a y))

theorem mem_le_foldl_max : ∀ (xs : List ℚ) (a x : ℚ), x ∈ xs → x ≤ xs.foldl max a := by
  intro xs
  induction xs with
  | nil => intro a x hx; simp at hx
  | cons y ys ih =>
    intro a x hx
    rcases List.mem_cons.mp hx with rfl | hx
    · exact (le_max_right a x).trans (init_le_foldl_max ys (max a x))
    · exact ih _ _ hx

/-- `mx.min` bounds every element from below. -/
theorem weight_min_le {t : Tensor} {w : ℚ} (h : w ∈ t.data) : weight_min t ≤ w := by
  rw [weight_min]
  cases hd : t.data with
  | nil => rw [hd] at h; simp at h
  | cons y ys =>
    rw [hd] at h
    rcases List.mem_cons.mp h with rfl | h
    · exact foldl_min_le_init ys w
    · exact foldl_min_le_mem ys y w h

/-- `mx.max` bounds every element from above. -/
theorem le_weight_max {t : Tensor} {w : ℚ} (h : w ∈ t.data) : w ≤ weight_max t := by
  rw [weight_max]
  cases hd : t.data with
  | nil => rw [hd] at h; simp at h
  | cons y ys =>
    rw [hd] at h
    rcases List.mem_cons.mp h with rfl | h
    · exact init_le_foldl_max ys w
    · exact mem_le_foldl_max ys y w h

theorem scaleOf_pos {t : Tensor} (h : weight_min t < weight_max t) : 0 < scaleOf t :=
  div_pos (sub_pos.mpr h) (by norm_num)

/-- For a non-degenerate tensor the normalized value `(w - min) / scale`
of every element lies inside `[0, 255]`, so the clip is the identity. -/
theorem quant_ratio_bounds {t : Tensor} {w : ℚ} (hw : w ∈ t.data)
    (h : weight_min t < weight_max t) :
    0 ≤ (w - weight_min t) / scaleOf t ∧ (w - weight_min t) / scaleOf t ≤ 255 := by
  have hs := scaleOf_pos h
  constructor
  · exact div_nonneg (sub_nonneg.mpr (weight_min_le hw)) hs.le
  · rw [div_le_iff₀ hs]
    have h255 : (255 : ℚ) * scaleOf t = weight_max t - weight_min t := by
      rw [scaleOf]; field_simp
    have := le_weight_max hw
    linarith [h255]

/-! ## Claim C1: the elementwise quantization formula (amended) -/

/-- Counterexample to C1 as stated: on `tFrac` the stored data (truncation
toward zero after the `-128` shift) differs from the spec's
`round_and_clip(..., 0, 255) - 128` at the elements `1` and `100`. -/
theorem C1_counterexample :
    isQuantizable tFrac = true ∧ weight_min tFrac < weight_max tFrac ∧
    (quantizeTensor tFrac).data = [-128, -127, -94, 127] ∧
    tFrac.data.map
        (fun w =>
          ((specRoundAndClip ((w - weight_min tFrac) / scaleOf tFrac) 0 255 - 128 : ℤ) : ℚ))
      = [-128, -128, -95, 127] ∧
    (quantizeTensor tFrac).data
      ≠ tFrac.data.map
          (fun w =>
            ((specRoundAndClip ((w - weight_min tFrac) / scaleOf tFrac) 0 255 - 128 : ℤ) : ℚ)) :=
  ⟨by decide, by decide, by decide, by decide, by decide⟩

/-- C1 (amended): the quantizer stores each element `w` of a quantizable
tensor as the truncation toward zero of
`clip((w - zero_point) / scale, 0, 255) - 128` (not a round-to-nearest),
with `scale = (weight_max - weight_min) / 255` and
`zero_point = weight_min` taken over the whole tensor; every stored value
fits the 8-bit signed range. -/
theorem C1_quantize_formula (t : Tensor)
    (hq : isQuantizable t = true) (h : weight_min t < weight_max t) :
    (quantizeTensor t).dtype = DType.int8 ∧
    (quantizeTensor t).shape = t.shape ∧
    (quantizeTensor t).data
      = t.data.map (fun w =>
          ((truncToInt
              (clip ((w - weight_min t) / ((weight_max t - weight_min t) / 255)) 0 255 - 128)
            : ℤ) : ℚ)) ∧
    ∀ w ∈ t.data,
      -128 ≤ quantElem (weight_min t) (scaleOf t) w ∧
      quantElem (weight_min t) (scaleOf t) w ≤ 127 :=
  ⟨rfl, rfl, rfl, fun w _ => quantElem_range (weight_min t) (scaleOf t) w⟩

/-- Witness for the amended C1 at `tFrac`. -/
theorem C1_witness :
    isQuantizable tFrac = true ∧ weight_min tFrac < weight_max tFrac ∧
    ((quantizeTensor tFrac).dtype = DType.int8 ∧
      (quantizeTensor tFrac).shape = tFrac.shape ∧
      (quantizeTensor tFrac).data
        = tFrac.data.map (fun w =>
            ((truncToInt
                (clip
                  ((w - weight_min tFrac) / ((weight_max tFrac - weight_min tFrac) / 255))
                  0 255 - 128)
              : ℤ) : ℚ)) ∧
      ∀ w ∈ tFrac.data,
        -128 ≤ quantElem (weight_min tFrac) (scaleOf tFrac) w ∧
        quantElem (weight_min tFrac) (scaleOf tFrac) w ≤ 127) :=
  ⟨by decide, by decide, C1_quantize_formula tFrac (by decide) (by decide)⟩

/-! ## Claim C2: dequantization error is at most one scale step -/

/-- C2: applying `dequantized = (quantized_int8 + 128) * scale + zero_point`
to each stored element recovers the original element to within `scale`,
for every non-degenerate quantizable tensor. -/
theorem C2_dequant_error (t : Tensor) (hq : isQuantizable t = true)
    (h : weight_min t < weight_max t) :
    (quantizeTensor t).data
      = t.data.map (fun w => ((quantElem (weight_min t) (scaleOf t) w : ℤ) : ℚ)) ∧
    ∀ w ∈ t.data,
      |dequant (scaleOf t) (weight_min t) ((quantElem (weight_min t) (scaleOf t) w : ℤ) : ℚ) - w|
        ≤ scaleOf t := by
  refine ⟨rfl, ?_⟩
  intro w hw
  have hs := scaleOf_pos h
  have hb := quant_ratio_bounds hw h
  set x : ℚ := (w - weight_min t) / scaleOf t with hx
  have hclip : clip x 0 255 = x := clip_eq_self hb.1 hb.2
  have hqe : quantElem (weight_min t) (scaleOf t) w = truncToInt (x - 128) := by
    rw [quantElem, hclip]
  have hwx : w = x * scaleOf t + weight_min t := by
    rw [hx, div_mul_cancel₀ _ hs.ne.symm]
    ring
  rw [hqe, dequant]
  set T : ℚ := ((truncToInt (x - 128) : ℤ) : ℚ) with hT
  have hrw : (T + 128) * scaleOf t + weight_min t - w = (T - (x - 128)) * scaleOf t := by
    rw [hwx]; ring
  rw [hrw, abs_mul, abs_of_pos hs]
  have key : |T - (x - 128)| ≤ 1 := abs_truncToInt_sub_le (x - 128)
  have hmul := mul_le_mul_of_nonneg_right key hs.le
  simpa using hmul

/-- Witness for C2 at `tFrac`. -/
theorem C2_witness :
    isQuantizable tFrac = true ∧ weight_min tFrac < weight_max tFrac ∧
    ((quantizeTensor tFrac).data
        = tFrac.data.map (fun w => ((quantElem (weight_min tFrac) (scaleOf tFrac) w : ℤ) : ℚ)) ∧
      ∀ w ∈ tFrac.data,
        |dequant (scaleOf tFrac) (weight_min tFrac)
            ((quantElem (weight_min tFrac) (scaleOf tFrac) w : ℤ) : ℚ) - w|
          ≤ scaleOf tFrac) :=
  ⟨by decide, by decide, C2_dequant_error tFrac (by decide) (by decide)⟩

/-! ## Claim C10: stored quantized elements lie in the int8 range -/

/-- C10: clipping to `[0, 255]` precedes the `-128` offset and the int8
cast, so every element the quantizer stores lies in `[-128, 127]`. -/
theorem C10_int8_range (t : Tensor) (hq : isQuantizable t = true)
    (h : weight_min t < weight_max t) :
    ∀ q ∈ (quantizeTensor t).data, -128 ≤ q ∧ q ≤ 127 := by
  intro q hqmem
  rcases List.mem_map.mp hqmem with ⟨w, _, rfl⟩
  have hr := quantElem_range (weight_min t) (scaleOf t) w
  constructor
  · exact_mod_cast hr.1
  · exact_mod_cast hr.2

/-- Witness for C10 at `tFrac`. -/
theorem C10_witness :
    isQuantizable tFrac = true ∧ weight_min tFrac < weight_max tFrac ∧
    (∀ q ∈ (quantizeTensor tFrac).data, -128 ≤ q ∧ q ≤ 127) :=
  ⟨by decide, by decide, C10_int8_range tFrac (by decide) (by decide)⟩

/-! ## The sorting order used by the inspector -/

theorem lexLe_total : ∀ l m : List Char, lexLe l m = true ∨ lexLe m l = true := by
  intro l
  induction l with
  | nil => intro m; left; rfl
  | cons a as ih =>
    intro m
    cases m with
    | nil => right; rfl
    | cons b bs =>
      by_cases hab : a < b
      · left; simp [lexLe, hab]
      · by_cases hba : b < a
        · right; simp [lexLe, hba]
        · rcases ih bs with h | h
          · left; simp [lexLe, hab, hba, h]
          · right; simp [lexLe, hab, hba, h]

theorem lexLe_trans :
    ∀ l m n : List Char, lexLe l m = true → lexLe m n = true → lexLe l n = true := by
  intro l
  induction l with
  | nil => intro m n _ _; rfl
  | cons a as ih =>
    intro m n hlm hmn
    cases m with
    | nil => simp [lexLe] at hlm
    | cons b bs =>
      cases n with
      | nil => simp [lexLe] at hmn
      | cons c cs =>
        by_cases hab : a < b
        · by_cases hbc : b < c
          · simp [lexLe, lt_trans hab hbc]
          · by_cases hcb : c < b
            · simp [lexLe, hbc, hcb] at hmn
            · have hbc' : b = c := le_antisymm (not_lt.mp hcb) (not_lt.mp hbc)
              subst hbc'
              simp [lexLe, hab]
        · by_cases hba : b < a
          · simp [lexLe, hab, hba] at hlm
          · have hab' : a = b := le_antisymm (not_lt.mp hba) (not_lt.mp hab)
            subst hab'
            by_cases hac : a < c
            · simp [lexLe, hac]
            · by_cases hca : c < a
              · simp [lexLe, hac, hca] at hmn
              · have hac' : a = c := le_antisymm (not_lt.mp hca) (not_lt.mp hac)
                subst hac'
                simp only [lexLe, lt_irrefl, if_false] at hlm hmn ⊢
                exact ih bs cs hlm hmn

theorem strLe_total (a b : String) : strLe a b ∨ strLe b a := lexLe_total a.data b.data

theorem strLe_trans (a b c : String) : strLe a b → strLe b c → strLe a c :=
  lexLe_trans a.data b.data c.data

theorem sortKeys_perm (l : List String) : (sortKeys l).Perm l :=
  List.perm_insertionSort strLe l

theorem sortKeys_sorted (l : List String) : List.Sorted strLe (sortKeys l) :=
  @List.sorted_insertionSort String strLe _ ⟨strLe_total⟩ ⟨strLe_trans⟩ l

/-! ## Claim C7: what the inspector prints (amended) -/

/-- Counterexample to C7 as stated: on `wmNorm` there are 3 `norm`
matches, yet no printed line even contains the digit `3` — the inspector
never prints the `norm` (or `transformer`) count; those headers read
`first 10`. -/
theorem C7_counterexample :
    (categoryMatches "norm" (wmNorm.map Prod.fst)).length = 3 ∧
    (inspectOutput wmNorm).all (fun l => !(l.data.contains '3')) = true :=
  ⟨by decide, by decide⟩

/-- C7 (amended): the inspector prints the count of matching keys for the
`embed` and `token` categories (each count equal to the number of keys
whose lowercase form contains the category substring), prints the
sorted matches in full for those two categories, prints for `norm` and
`transformer` only a count-free `first 10` header followed by the first
10 sorted matches, and prints a total equal to the number of keys. -/
theorem C7_inspector_output (wm : List (String × String)) :
    ∃ es ts ns xs : List String,
      es.Perm (categoryMatches "embed" (wm.map Prod.fst)) ∧ List.Sorted strLe es ∧
      ts.Perm (categoryMatches "token" (wm.map Prod.fst)) ∧ List.Sorted strLe ts ∧
      ns.Perm (categoryMatches "norm" (wm.map Prod.fst)) ∧ List.Sorted strLe ns ∧
      xs.Perm (categoryMatches "transformer" (wm.map Prod.fst)) ∧ List.Sorted strLe xs ∧
      inspectOutput wm =
        ["Available weights in the model:", String.mk (List.replicate 50 '=')]
        ++ ("\nEmbedding weights ("
              ++ toString ((wm.map Prod.fst).countP fun k => lowerContains "embed" k) ++ "):")
            :: es.map (fun w => "  " ++ w)
        ++ ("\nToken weights ("
              ++ toString ((wm.map Prod.fst).countP fun k => lowerContains "token" k) ++ "):")
            :: ts.map (fun w => "  " ++ w)
        ++ "\nNorm weights (first 10):" :: (ns.take 10).map (fun w => "  " ++ w)
        ++ "\nTransformer weights (first 10):" :: (xs.take 10).map (fun w => "  " ++ w)
        ++ ["\nTotal weights: " ++ toString (wm.map Prod.fst).length] := by
  refine ⟨sortKeys (categoryMatches "embed" (wm.map Prod.fst)),
    sortKeys (categoryMatches "token" (wm.map Prod.fst)),
    sortKeys (categoryMatches "norm" (wm.map Prod.fst)),
    sortKeys (categoryMatches "transformer" (wm.map Prod.fst)),
    sortKeys_perm _, sortKeys_sorted _, sortKeys_perm _, sortKeys_sorted _,
    sortKeys_perm _, sortKeys_sorted _, sortKeys_perm _, sortKeys_sorted _, ?_⟩
  simp only [inspectOutput, categoryMatches, List.countP_eq_length_filter]

end KickbackApp
